import Mathlib

/-!
Verification development for the sticker segmentation backend
(`backend/state.py`, `backend/worker.py`, `backend/main.py`,
`backend/clustering.py`).

The in-memory application state (`AppState` in `state.py`) is embedded as a
record of association lists (Python dicts preserve insertion order, which an
association list models exactly).  The `asyncio.PriorityQueue` is embedded as
the multiset of its entries (a list in insertion order); serving order is the
sort of that multiset by the dataclass ordering key `(priority, timestamp)`
(`task_id` carries `compare=False`).  Numeric thresholds (Python floats
compared only for equality) are embedded as rationals; timestamps as naturals.
Filesystem writes (`json.dump`, `pickle.dump`, file deletion) are modelled by
boolean "persisted" flags or dropped where no claim mentions them.
-/

namespace StickerDb

/-- Lifecycle states of a `SegmentationTask` (`state.py` line 16). -/
inductive Status where
  | pending
  | processing
  | completed
  | failed
deriving DecidableEq, Repr

/-- One entry of `task.result_paths`: the dicts `{path, box, score}`
(`state.py` line 17). -/
structure ResultEntry where
  path : String
  box : List Rat
  score : Rat
deriving DecidableEq, Repr

/-- `SegmentationTask` (`state.py` lines 12-24). -/
structure SegmentationTask where
  task_id : String
  image_path : String
  status : Status := .pending
  result_paths : List ResultEntry := []
  overlay_path : Option String := none
  created_at : Nat := 0
  error : Option String := none
  iou_threshold : Rat := 1
  score_threshold : Rat := 1
  metadata : List (String × String) := []
deriving DecidableEq, Repr

/-- `QueueItem` (`state.py` lines 6-10): `@dataclass(order=True)` with
`task_id` marked `compare=False`, so the comparison key is
`(priority, timestamp)`. -/
structure QueueItem where
  priority : Int
  timestamp : Nat
  task_id : String
deriving DecidableEq, Repr

/-- Values stored in `AppState.file_hashes` (the dedup index,
`state.py` line 49): either the dict `{task_id, iou, score}` written by
`save_hash` in `main.py`, a legacy bare task-id string from an old
`hash_db.json`, or Python `None` (written by `delete_task`). -/
inductive HashVal where
  | record (task_id : String) (iou : Rat) (score : Rat)
  | legacy (task_id : String)
  | null
deriving DecidableEq, Repr

/-- Python truthiness of a `HashVal` as tested by
`if existing_data:` in `main.py`: a non-empty dict and a non-empty
string are truthy, `None` is falsy (task ids are UUID strings, never empty). -/
def HashVal.truthy : HashVal → Bool
  | .record _ _ _ => true
  | .legacy _ => true
  | .null => false

/-- The `task_id` a `HashVal` designates, as read by `delete_task`
(`state.py` line 206): `data.get('task_id') if isinstance(data, dict) else
data`; for `None` the comparison `None == task_id` is false. -/
def HashVal.taskId : HashVal → Option String
  | .record tid _ _ => some tid
  | .legacy tid => some tid
  | .null => none

/-- States of `clustering_progress["status"]` (`state.py` lines 39-45). -/
inductive ClStatus where
  | idle
  | running
  | completed
  | failed
deriving DecidableEq, Repr

/-- One group dict built by `organize_clusters` (`clustering.py`
lines 114-120). -/
structure Group where
  id : Int
  sticker_paths : List String
  count : Nat
deriving DecidableEq, Repr

/-- The dict returned by `organize_clusters` (`clustering.py`
lines 122-127). -/
structure ClusterResult where
  groups : List Group
  ungrouped : List String
  total_grouped : Nat
  total_ungrouped : Nat
deriving DecidableEq, Repr

/-! ### Association lists: the embedding of Python dicts -/

/-- `d.get(k)`: value of the first entry with key `k`. -/
def alistLookup {α : Type} : List (String × α) → String → Option α
  | [], _ => none
  | p :: l, k => if p.1 = k then some p.2 else alistLookup l k

/-- `d[k] = v`: replace the value at `k` in place if the key is present,
otherwise append the new pair (Python dicts keep the position of an updated
key and append new keys). -/
def alistInsert {α : Type} : List (String × α) → String → α → List (String × α)
  | [], k, v => [(k, v)]
  | p :: l, k, v => if p.1 = k then (k, v) :: l else p :: alistInsert l k v

/-- `del d[k]`: drop the entries with key `k`. -/
def alistErase {α : Type} (l : List (String × α)) (k : String) : List (String × α) :=
  l.filter (fun p => decide (p.1 ≠ k))

theorem alistLookup_insert_self {α : Type} (l : List (String × α)) (k : String) (v : α) :
    alistLookup (alistInsert l k v) k = some v := by
  induction l with
  | nil => simp [alistInsert, alistLookup]
  | cons p l ih =>
    by_cases h : p.1 = k
    · simp [alistInsert, alistLookup, h]
    · simp [alistInsert, alistLookup, h, ih]

theorem alistLookup_insert_ne {α : Type} (l : List (String × α)) (k k' : String) (v : α)
    (h : k' ≠ k) : alistLookup (alistInsert l k v) k' = alistLookup l k' := by
  have h' : ¬ k = k' := fun hh => h hh.symm
  induction l with
  | nil => simp [alistInsert, alistLookup, h']
  | cons p l ih =>
    by_cases hp : p.1 = k
    · have hpk' : ¬ p.1 = k' := by rw [hp]; exact h'
      simp [alistInsert, alistLookup, hp, hpk', h']
    · simp [alistInsert, alistLookup, hp, ih]

theorem alistLookup_erase_self {α : Type} (l : List (String × α)) (k : String) :
    alistLookup (alistErase l k) k = none := by
  induction l with
  | nil => simp [alistErase, alistLookup]
  | cons p l ih =>
    by_cases h : p.1 = k
    · simpa [alistErase, List.filter_cons, h] using ih
    · simpa [alistErase, List.filter_cons, alistLookup, h] using ih

theorem alistLookup_erase_ne {α : Type} (l : List (String × α)) (k k' : String)
    (h : k' ≠ k) : alistLookup (alistErase l k) k' = alistLookup l k' := by
  induction l with
  | nil => simp [alistErase, alistLookup]
  | cons p l ih =>
    have h' : ¬ k = k' := fun hh => h hh.symm
    by_cases hp : p.1 = k
    · simpa [alistErase, List.filter_cons, alistLookup, hp, h'] using ih
    · by_cases hp' : p.1 = k'
      · simp [alistErase, List.filter_cons, alistLookup, hp, hp', h]
      · simpa [alistErase, List.filter_cons, alistLookup, hp, hp'] using ih

/-! ### Application state (`AppState`, `state.py` lines 31-57)

The filesystem-backed persistence (`tasks.json`, `hash_db.json`,
`embedding_cache.pkl`) is write-through from the in-memory dicts; only the
in-memory dicts decide behaviour, so only they are embedded.  The
`clustering_progress` dict is flattened into its fields. -/

structure AppState where
  queue : List QueueItem
  tasks : List (String × SegmentationTask)
  file_hashes : List (String × HashVal)
  embedding_cache : List (String × List Rat)
  clustering_status : ClStatus
  clustering_total : Nat
  clustering_current : Nat
  cluster_results : Option ClusterResult
  segmentator_ready : Bool
deriving DecidableEq, Repr

/-- Status of the job with id `tid` in the Task Record Store. -/
def statusOf (s : AppState) (tid : String) : Option Status :=
  (alistLookup s.tasks tid).map (fun t => t.status)

/-- Number of queue entries referencing job id `tid`. -/
def queueCount (q : List QueueItem) (tid : String) : Nat :=
  q.countP (fun item => item.task_id = tid)

/-- `AppState.add_task` (`state.py` lines 152-162): if the task exists and its
status is `completed` or `processing`, return without enqueueing; otherwise
set an existing task's status to `pending` and put
`QueueItem(priority, time.time(), task_id)` on the priority queue. -/
def add_task (s : AppState) (task_id : String) (priority : Int) (now : Nat) : AppState :=
  match alistLookup s.tasks task_id with
  | some task =>
    if task.status = .completed ∨ task.status = .processing then s
    else
      { s with
        tasks := alistInsert s.tasks task_id { task with status := .pending },
        queue := s.queue ++ [⟨priority, now, task_id⟩] }
  | none => { s with queue := s.queue ++ [⟨priority, now, task_id⟩] }

/-- The `/segment/priority` endpoint `update_priority` (`main.py`
lines 239-245): if the task id is known, delegate to `add_task`; the boolean
reports whether the response was `{"status": "updated"}` rather than the
not-found error. -/
def update_priority (s : AppState) (task_id : String) (priority : Int) (now : Nat) :
    AppState × Bool :=
  if (alistLookup s.tasks task_id).isSome then (add_task s task_id priority now, true)
  else (s, false)

/-- `AppState.save_hash` (`state.py` lines 104-110): `file_hashes[hash] = data`
then write the dict through to `hash_db.json`. -/
def save_hash (s : AppState) (file_hash : String) (data : HashVal) : AppState :=
  { s with file_hashes := alistInsert s.file_hashes file_hash data }

/-- The dedup-reuse check of `create_segment_task` (`main.py` lines 197-213):
`existing_data = state.file_hashes.get(req.file_hash)`; when truthy and a
dict, reuse only if the stored `iou` and `score` equal the request's
thresholds and the stored task id is in `state.tasks`; when a legacy bare
string, reuse whenever the task id is in `state.tasks` (no parameter check);
otherwise fall through (create a new task). -/
def dedupLookup (s : AppState) (file_hash : String) (iou score : Rat) : Option String :=
  match alistLookup s.file_hashes file_hash with
  | some (HashVal.record tid i sc) =>
      if i = iou ∧ sc = score then
        if (alistLookup s.tasks tid).isSome then some tid else none
      else none
  | some (HashVal.legacy tid) =>
      if (alistLookup s.tasks tid).isSome then some tid else none
  | some HashVal.null => none
  | none => none

/-- Outcome reported by the `/segment/task` endpoint. -/
inductive CreateOutcome where
  | reused (task_id : String)
  | created (task_id : String)
deriving DecidableEq, Repr

/-- `create_segment_task` (`main.py` lines 181-237): the dedup check above,
else create a fresh `SegmentationTask` (status `pending`), store it, enqueue
it via `add_task` at the requested priority, and when a fingerprint was given
record `{task_id, iou, score}` for it via `save_hash`.  `new_id` stands for
the generated `uuid4` string, `now` for `time.time()`. -/
def create_segment_task (s : AppState) (image_path : String) (priority : Int)
    (iou score : Rat) (metadata : List (String × String)) (file_hash : Option String)
    (new_id : String) (now : Nat) : AppState × CreateOutcome :=
  match file_hash with
  | some h =>
    match dedupLookup s h iou score with
    | some tid => (s, .reused tid)
    | none =>
      let task : SegmentationTask :=
        { task_id := new_id, image_path := image_path, status := .pending,
          created_at := now, iou_threshold := iou, score_threshold := score,
          metadata := metadata }
      let s1 := { s with tasks := alistInsert s.tasks new_id task }
      let s2 := add_task s1 new_id priority now
      (save_hash s2 h (.record new_id iou score), .created new_id)
  | none =>
    let task : SegmentationTask :=
      { task_id := new_id, image_path := image_path, status := .pending,
        created_at := now, iou_threshold := iou, score_threshold := score,
        metadata := metadata }
    let s1 := { s with tasks := alistInsert s.tasks new_id task }
    (add_task s1 new_id priority now, .created new_id)

/-- `AppState.delete_task` (`state.py` lines 164-224): return `false` for an
unknown id; otherwise remove files (filesystem only, not modelled), scan
`file_hashes` for the first entry whose task id equals `task_id`, and when
found `del` it and then call `save_hash(hash, None)` — which re-inserts the
key with value `None`; finally remove the task and persist the task table. -/
def delete_task (s : AppState) (task_id : String) : AppState × Bool :=
  if (alistLookup s.tasks task_id).isSome then
    let hash_to_remove :=
      (s.file_hashes.find? (fun p => p.2.taskId = some task_id)).map (fun p => p.1)
    let s1 :=
      match hash_to_remove with
      | some h => save_hash { s with file_hashes := alistErase s.file_hashes h } h .null
      | none => s
    ({ s1 with tasks := alistErase s1.tasks task_id }, true)
  else (s, false)

/-- The `/cluster` endpoint `trigger_clustering` (`main.py` lines 263-277):
when `clustering_progress["status"] == "running"` it answers
`already_running` and schedules nothing; otherwise it schedules
`run_clustering_task` as a background task.  The boolean is whether a run was
scheduled. -/
def trigger_clustering (s : AppState) : Bool :=
  if s.clustering_status = .running then false else true

/-- The idle check in the worker loop's `finally` block (`worker.py`
lines 98-106): whenever the queue is empty and no task has status
`processing`, `asyncio.create_task(run_clustering_task(...))` is spawned —
with no look at `clustering_progress`.  The boolean is whether a clustering
run is spawned by this iteration. -/
def workerFinallyCheck (s : AppState) : Bool :=
  s.queue.isEmpty &&
    ((s.tasks.countP (fun p => p.2.status = .processing)) = 0)

/-! ### Worker loop iteration (`worker.py` lines 10-96) -/

/-- What the segmentation collaborator call
(`state.segmentator.segment(...)`, `worker.py` lines 50-58) does on a given
job: return results plus an optional overlay path, or raise with a message. -/
inductive SegOutcome where
  | ok (results : List ResultEntry) (overlay : Option String)
  | raised (msg : String)
deriving DecidableEq, Repr

/-- Effects of handling one dequeued entry. -/
structure IterResult where
  state : AppState
  /-- Did this iteration call `state.save_tasks_db()`? -/
  savedTasksDb : Bool
  /-- Did this iteration leave the `while True` loop (only
  `asyncio.CancelledError` does, which is not a collaborator outcome)? -/
  breaksLoop : Bool
deriving Repr

/-- Rewrite a collaborator result path to the public
`/static/results/{task_id}/{filename}` scheme (`worker.py` lines 64-72);
the basename computation is kept abstract as the final path component. -/
def toPublicPath (task_id : String) (p : String) : String :=
  String.append (String.append "/static/results/" task_id)
    (String.append "/" ((p.splitOn "/").getLastD p))

/-- One iteration of `segmentation_worker` (`worker.py` lines 12-96) after
`item` has been taken from the queue: an absent job id or a non-`pending`
status is discarded; otherwise the job moves to `processing`, and when the
segmentator is missing it is marked `failed` (no persist); an `ok`
collaborator outcome stores the rewritten result paths and overlay, marks
`completed` and persists the task table; a raised exception is caught by the
`except` clause, which records the message and marks `failed` — with no
persist — and falls through to `finally`, continuing the loop. -/
def workerIteration (s : AppState) (item : QueueItem) (outcome : SegOutcome) : IterResult :=
  match alistLookup s.tasks item.task_id with
  | none => { state := s, savedTasksDb := false, breaksLoop := false }
  | some task =>
    if task.status ≠ .pending then
      { state := s, savedTasksDb := false, breaksLoop := false }
    else
      let processing := { task with status := Status.processing }
      if ¬ s.segmentator_ready then
        let failedTask := { processing with
          status := Status.failed,
          error := some "Segmentator not initialized" }
        { state := { s with tasks := alistInsert s.tasks item.task_id failedTask },
          savedTasksDb := false, breaksLoop := false }
      else
        match outcome with
        | .ok results overlay =>
          let rewritten := results.map (fun r =>
            { r with path := toPublicPath item.task_id r.path })
          let doneTask := { processing with
            status := Status.completed,
            result_paths := rewritten,
            overlay_path := overlay.map (toPublicPath item.task_id) }
          { state := { s with tasks := alistInsert s.tasks item.task_id doneTask },
            savedTasksDb := true, breaksLoop := false }
        | .raised msg =>
          let failedTask := { processing with status := Status.failed, error := some msg }
          { state := { s with tasks := alistInsert s.tasks item.task_id failedTask },
            savedTasksDb := false, breaksLoop := false }

/-! ### Startup restore (`main.py` lines 58-68) -/

/-- Is a restored job re-queued by the `lifespan` loop
(`task.status in ["pending", "processing"]`)? -/
def requeuable (t : SegmentationTask) : Bool :=
  t.status = .pending || t.status = .processing

/-- One pass of the `lifespan` re-queue loop body for the entry
`(tid, task)`: reset `processing`/`pending` to `pending` in the store, then
`await state.add_task(task_id, priority=2)`. -/
def requeueTask (s : AppState) (tid : String) (task : SegmentationTask) (now : Nat) :
    AppState :=
  if requeuable task then
    add_task { s with tasks := alistInsert s.tasks tid { task with status := .pending } }
      tid 2 now
  else s

/-- The `for task_id, task in state.tasks.items():` loop of `lifespan`. -/
def restoreLoop (now : Nat) : List (String × SegmentationTask) → AppState → AppState
  | [], s => s
  | p :: rest, s => restoreLoop now rest (requeueTask s p.1 p.2 now)

/-- The re-queueing part of `lifespan` (`main.py` lines 58-68), run on the
state loaded from `tasks.json` before the worker starts. -/
def lifespanRestore (s : AppState) (now : Nat) : AppState :=
  restoreLoop now s.tasks s

/-! ### Clustering (`clustering.py`) -/

/-- The grouping pass of `organize_clusters` (`clustering.py` lines 101-111):
fold `zip(sticker_paths, labels)` into the insertion-ordered
`label_to_paths` dict and the `ungrouped` list; the sentinel label `-1` goes
to `ungrouped`. -/
def addLabeled (acc : List (Int × List String) × List String) (pl : String × Int) :
    List (Int × List String) × List String :=
  if pl.2 = -1 then (acc.1, acc.2 ++ [pl.1])
  else
    if acc.1.any (fun q => q.1 = pl.2) then
      (acc.1.map (fun q => if q.1 = pl.2 then (q.1, q.2 ++ [pl.1]) else q), acc.2)
    else (acc.1 ++ [(pl.2, [pl.1])], acc.2)

/-- The sort key relation of `sorted(label_to_paths.items(),
key=lambda x: -len(x[1]))` (`clustering.py` line 115): ascending in
`-len(paths)`, i.e. descending in member count.  Python's `sorted` is
stable; a stable insertion sort with this total preorder produces the same
list. -/
def pairGe (a b : Int × List String) : Prop := b.2.length ≤ a.2.length

instance : DecidableRel pairGe := fun a b => by unfold pairGe; infer_instance

instance : IsTotal (Int × List String) pairGe :=
  ⟨fun a b => Nat.le_total b.2.length a.2.length⟩

instance : IsTrans (Int × List String) pairGe :=
  ⟨fun _ _ _ hab hbc => Nat.le_trans hbc hab⟩

/-- `organize_clusters` (`clustering.py` lines 87-127). -/
def organize_clusters (sticker_paths : List String) (labels : List Int) : ClusterResult :=
  let folded := (sticker_paths.zip labels).foldl addLabeled ([], [])
  let groups := (List.insertionSort pairGe folded.1).map
    (fun q => { id := q.1, sticker_paths := q.2, count := q.2.length : Group })
  { groups := groups,
    ungrouped := folded.2,
    total_grouped := (groups.map (fun g => g.count)).sum,
    total_ungrouped := folded.2.length }

/-- `run_clustering_task` (`clustering.py` lines 129-267), with the
filesystem walk, the embedding collaborator and the grouping collaborator as
parameters.  Note there is no check of `clustering_progress["status"]`
anywhere in its body: it proceeds even when a run is already `running`.
The success path fills the embedding cache for uncached paths, clusters,
stores the organized result and sets status `completed`. -/
def run_clustering_task (s : AppState) (resultsDirExists : Bool)
    (sticker_paths : List String) (embedOf : String → List Rat)
    (labelsOf : List (List Rat) → List Int) : AppState :=
  if ¬ resultsDirExists then { s with clustering_status := .failed }
  else if sticker_paths.length = 0 then
    { s with
      clustering_status := .completed, clustering_total := 0, clustering_current := 0,
      cluster_results := some { groups := [], ungrouped := [],
                                total_grouped := 0, total_ungrouped := 0 } }
  else
    let s1 := { s with clustering_status := ClStatus.running,
                       clustering_total := sticker_paths.length }
    let cache := sticker_paths.foldl
      (fun c p => if (alistLookup c p).isSome then c else alistInsert c p (embedOf p))
      s1.embedding_cache
    let embs := sticker_paths.map (fun p => (alistLookup cache p).getD (embedOf p))
    let labels := labelsOf embs
    let result := organize_clusters sticker_paths labels
    { s1 with
      embedding_cache := cache,
      cluster_results := some result,
      clustering_status := .completed,
      clustering_current := sticker_paths.length }

/-! ### Queue serving order

`asyncio.PriorityQueue` serves a least entry under the dataclass order
`(priority, timestamp)` at each `get()`.  `drain` is the full service order
of a queue's entries: the multiset sorted by that key. -/

/-- The dataclass comparison of `QueueItem` (`task_id` has
`compare=False`): lexicographic on `(priority, timestamp)`. -/
def queueLe (a b : QueueItem) : Prop :=
  a.priority < b.priority ∨ (a.priority = b.priority ∧ a.timestamp ≤ b.timestamp)

/-- Strict version of `queueLe`. -/
def queueLt (a b : QueueItem) : Prop :=
  a.priority < b.priority ∨ (a.priority = b.priority ∧ a.timestamp < b.timestamp)

instance : DecidableRel queueLe := fun a b => by unfold queueLe; infer_instance

instance : IsTotal QueueItem queueLe := by
  constructor
  intro a b
  rcases lt_trichotomy a.priority b.priority with h | h | h
  · exact Or.inl (Or.inl h)
  · rcases Nat.le_total a.timestamp b.timestamp with ht | ht
    · exact Or.inl (Or.inr ⟨h, ht⟩)
    · exact Or.inr (Or.inr ⟨h.symm, ht⟩)
  · exact Or.inr (Or.inl h)

instance : IsTrans QueueItem queueLe := by
  constructor
  intro a b c hab hbc
  rcases hab with h1 | ⟨h1, t1⟩
  · rcases hbc with h2 | ⟨h2, _⟩
    · exact Or.inl (lt_trans h1 h2)
    · exact Or.inl (h2 ▸ h1)
  · rcases hbc with h2 | ⟨h2, t2⟩
    · exact Or.inl (h1 ▸ h2)
    · exact Or.inr ⟨h1.trans h2, Nat.le_trans t1 t2⟩

/-- The order in which the worker's successive `state.queue.get()` calls
serve the entries currently in the queue. -/
def drain (q : List QueueItem) : List QueueItem :=
  List.insertionSort queueLe q

/-! ### Helper lemmas -/

theorem alistLookup_of_mem_nodup {α : Type} (l : List (String × α))
    (hnd : (l.map Prod.fst).Nodup) (k : String) (v : α) (hm : (k, v) ∈ l) :
    alistLookup l k = some v := by
  induction l with
  | nil => cases hm
  | cons p rest ih =>
    rcases List.mem_cons.mp hm with h | h
    · rw [← h]
      simp [alistLookup]
    · have hk : k ∈ rest.map Prod.fst := List.mem_map.mpr ⟨(k, v), h, rfl⟩
      have hne : p.1 ≠ k := by
        intro hh
        exact (List.nodup_cons.mp hnd).1 (hh ▸ hk)
      simp only [alistLookup, hne, if_false]
      exact ih (List.nodup_cons.mp hnd).2 h

theorem countP_eq_zero_of_no_key {α : Type} (l : List (String × α)) (tid : String)
    (f : String × α → Bool) (h : ∀ p ∈ l, p.1 ≠ tid) :
    l.countP (fun p => decide (p.1 = tid) && f p) = 0 := by
  apply List.countP_eq_zero.mpr
  intro p hp
  simp [h p hp]

theorem countP_key_unique {α : Type} (l : List (String × α))
    (hnd : (l.map Prod.fst).Nodup) (tid : String) (task : α)
    (hm : (tid, task) ∈ l) (f : String × α → Bool) :
    l.countP (fun p => decide (p.1 = tid) && f p) = if f (tid, task) then 1 else 0 := by
  induction l with
  | nil => cases hm
  | cons p rest ih =>
    have hnd' := List.nodup_cons.mp hnd
    rcases List.mem_cons.mp hm with h | h
    · have hz : rest.countP (fun q => decide (q.1 = tid) && f q) = 0 := by
        apply countP_eq_zero_of_no_key
        intro q hq hqe
        apply hnd'.1
        have hp1 : p.1 = tid := by rw [← h]
        rw [hp1, ← hqe]
        exact List.mem_map.mpr ⟨q, hq, rfl⟩
      rw [← h]
      by_cases hf : f p
      · simp [List.countP_cons, hz, hf, ← h]
      · simp [List.countP_cons, hz, hf, ← h]
    · have hk : tid ∈ rest.map Prod.fst := List.mem_map.mpr ⟨(tid, task), h, rfl⟩
      have hne : p.1 ≠ tid := fun hh => hnd'.1 (hh ▸ hk)
      simp [List.countP_cons, hne, ih hnd'.2 h]

theorem statusOf_eq_some (s : AppState) (tid : String) (task : SegmentationTask)
    (h : alistLookup s.tasks tid = some task) : statusOf s tid = some task.status := by
  simp [statusOf, h]

/-- `add_task` with a `completed` or `processing` job is a silent no-op. -/
theorem add_task_noop (s : AppState) (tid : String) (p : Int) (now : Nat)
    (h : statusOf s tid = some .completed ∨ statusOf s tid = some .processing) :
    add_task s tid p now = s := by
  unfold add_task
  cases hl : alistLookup s.tasks tid with
  | none => simp [statusOf, hl] at h
  | some task =>
    have hst : task.status = Status.completed ∨ task.status = Status.processing := by
      simp [statusOf, hl] at h
      rcases h with h | h
      · exact Or.inl h
      · exact Or.inr h
    simp [hst]

/-- Status changes performed by `add_task`: every job keeps its status except
possibly `tid` itself, which can only become `pending`, and only from
`pending` or `failed` (or stay absent). -/
theorem add_task_status (s : AppState) (tid : String) (p : Int) (now : Nat) (tid' : String) :
    statusOf (add_task s tid p now) tid' = statusOf s tid'
    ∨ (tid' = tid ∧ statusOf (add_task s tid p now) tid' = some .pending
        ∧ (statusOf s tid = some .pending ∨ statusOf s tid = some .failed)) := by
  unfold add_task
  cases hl : alistLookup s.tasks tid with
  | none => exact Or.inl rfl
  | some task =>
    by_cases hst : task.status = Status.completed ∨ task.status = Status.processing
    · simp [hst]
    · have hpf : statusOf s tid = some .pending ∨ statusOf s tid = some .failed := by
        rw [statusOf_eq_some s tid task hl]
        cases hts : task.status with
        | pending => exact Or.inl rfl
        | processing => exact absurd (Or.inr hts) hst
        | completed => exact absurd (Or.inl hts) hst
        | failed => exact Or.inr rfl
      by_cases he : tid' = tid
      · refine Or.inr ⟨he, ?_, hpf⟩
        simp [hst, statusOf, he, alistLookup_insert_self]
      · refine Or.inl ?_
        simp [hst, statusOf, alistLookup_insert_ne _ _ _ _ he]

/-- `add_task` on a job that is absent, `pending` or `failed` appends exactly
one queue entry `(priority, now, tid)` and touches nothing else of the
queue. -/
theorem add_task_queue (s : AppState) (tid : String) (p : Int) (now : Nat)
    (h : ¬ (statusOf s tid = some .completed ∨ statusOf s tid = some .processing)) :
    (add_task s tid p now).queue = s.queue ++ [⟨p, now, tid⟩] := by
  unfold add_task
  cases hl : alistLookup s.tasks tid with
  | none => rfl
  | some task =>
    have hst : ¬ (task.status = Status.completed ∨ task.status = Status.processing) := by
      intro hc
      apply h
      rw [statusOf_eq_some s tid task hl]
      rcases hc with hc | hc
      · exact Or.inl (by rw [hc])
      · exact Or.inr (by rw [hc])
    simp [hst]

theorem add_task_status_after (s : AppState) (tid : String) (p : Int) (now : Nat) :
    statusOf (add_task s tid p now) tid = statusOf s tid
    ∨ statusOf (add_task s tid p now) tid = some .pending := by
  rcases add_task_status s tid p now tid with hh | hh
  · exact Or.inl hh
  · exact Or.inr hh.2.1

theorem add_task_of_some (s : AppState) (tid : String) (p : Int) (now : Nat)
    (task : SegmentationTask) (hl : alistLookup s.tasks tid = some task)
    (hst : ¬ (task.status = Status.completed ∨ task.status = Status.processing)) :
    add_task s tid p now =
      { s with tasks := alistInsert s.tasks tid { task with status := Status.pending },
               queue := s.queue ++ [⟨p, now, tid⟩] } := by
  unfold add_task
  rw [hl]
  simp [hst]

theorem add_task_of_none (s : AppState) (tid : String) (p : Int) (now : Nat)
    (hl : alistLookup s.tasks tid = none) :
    add_task s tid p now = { s with queue := s.queue ++ [⟨p, now, tid⟩] } := by
  unfold add_task
  rw [hl]

theorem requeueTask_queue (s : AppState) (tid : String) (task : SegmentationTask) (now : Nat) :
    (requeueTask s tid task now).queue =
      s.queue ++ (if requeuable task then [⟨2, now, tid⟩] else []) := by
  unfold requeueTask
  by_cases h : requeuable task
  · rw [if_pos h, if_pos h,
      add_task_of_some _ _ _ _ ({ task with status := Status.pending })
        (alistLookup_insert_self _ _ _) (by simp)]
  · simp [h]

theorem requeueTask_lookup_self (s : AppState) (tid : String) (task : SegmentationTask)
    (now : Nat) :
    alistLookup (requeueTask s tid task now).tasks tid =
      if requeuable task then some ({ task with status := Status.pending })
      else alistLookup s.tasks tid := by
  unfold requeueTask
  by_cases h : requeuable task
  · rw [if_pos h, if_pos h,
      add_task_of_some _ _ _ _ ({ task with status := Status.pending })
        (alistLookup_insert_self _ _ _) (by simp)]
    exact alistLookup_insert_self _ _ _
  · simp [h]

theorem requeueTask_lookup_ne (s : AppState) (tid tid' : String) (task : SegmentationTask)
    (now : Nat) (hne : tid' ≠ tid) :
    alistLookup (requeueTask s tid task now).tasks tid' = alistLookup s.tasks tid' := by
  unfold requeueTask
  by_cases h : requeuable task
  · rw [if_pos h,
      add_task_of_some _ _ _ _ ({ task with status := Status.pending })
        (alistLookup_insert_self _ _ _) (by simp)]
    simp [alistLookup_insert_ne _ _ _ _ hne]
  · simp [h]

/-- The `lifespan` loop appends, to whatever was in the queue, exactly one
priority-2 entry per `pending`/`processing` task, in table order. -/
theorem restoreLoop_queue (now : Nat) (l : List (String × SegmentationTask)) :
    ∀ s : AppState, (restoreLoop now l s).queue =
      s.queue ++ (l.filter (fun p => requeuable p.2)).map
        (fun p => (⟨2, now, p.1⟩ : QueueItem)) := by
  induction l with
  | nil => intro s; simp [restoreLoop]
  | cons p rest ih =>
    intro s
    rw [restoreLoop, ih, requeueTask_queue]
    by_cases h : requeuable p.2
    · simp [List.filter_cons, h]
    · simp [List.filter_cons, h]

theorem restoreLoop_lookup_not_mem (now : Nat) (l : List (String × SegmentationTask)) :
    ∀ (s : AppState) (tid : String), tid ∉ l.map Prod.fst →
      alistLookup (restoreLoop now l s).tasks tid = alistLookup s.tasks tid := by
  induction l with
  | nil => intro s tid _; rfl
  | cons p rest ih =>
    intro s tid hmem
    have h1 : tid ≠ p.1 := fun hh => hmem (by rw [hh]; exact List.mem_cons_self _ _)
    have h2 : tid ∉ rest.map Prod.fst := fun hh => hmem (List.mem_cons_of_mem _ hh)
    rw [restoreLoop, ih _ _ h2, requeueTask_lookup_ne _ _ _ _ _ h1]

theorem restoreLoop_lookup_mem (now : Nat) (l : List (String × SegmentationTask)) :
    ∀ (s : AppState) (tid : String) (task : SegmentationTask),
      (l.map Prod.fst).Nodup → (tid, task) ∈ l →
      alistLookup (restoreLoop now l s).tasks tid =
        if requeuable task then some ({ task with status := Status.pending })
        else alistLookup s.tasks tid := by
  induction l with
  | nil => intro _ _ _ _ hm; cases hm
  | cons p rest ih =>
    intro s tid task hnd hm
    have hnd' := List.nodup_cons.mp hnd
    rcases List.mem_cons.mp hm with h | h
    · have hp1 : p.1 = tid := by rw [← h]
      have hnotin : tid ∉ rest.map Prod.fst := hp1 ▸ hnd'.1
      rw [restoreLoop, restoreLoop_lookup_not_mem now rest _ tid hnotin, ← h,
        requeueTask_lookup_self]
    · have hk : tid ∈ rest.map Prod.fst := List.mem_map.mpr ⟨(tid, task), h, rfl⟩
      have hne : tid ≠ p.1 := fun hh => hnd'.1 (hh ▸ hk)
      rw [restoreLoop, ih _ _ _ hnd'.2 h]
      by_cases hr : requeuable task
      · simp [hr]
      · simp [hr, requeueTask_lookup_ne _ _ _ _ _ hne]

/-- Handling a dequeued entry whose job is absent or non-`pending` changes
nothing and persists nothing. -/
theorem workerIteration_noop (s : AppState) (item : QueueItem) (outcome : SegOutcome)
    (h : alistLookup s.tasks item.task_id = none ∨
      ∃ task, alistLookup s.tasks item.task_id = some task ∧ task.status ≠ Status.pending) :
    workerIteration s item outcome = { state := s, savedTasksDb := false, breaksLoop := false } := by
  unfold workerIteration
  rcases h with h | ⟨task, hl, hst⟩
  · rw [h]
  · rw [hl]
    simp [hst]

/-- Status changes performed by one worker iteration: every job keeps its
status except possibly the dequeued id itself, which moves from `pending` to
`completed` or `failed`. -/
theorem workerIteration_status (s : AppState) (item : QueueItem) (outcome : SegOutcome)
    (tid' : String) :
    statusOf (workerIteration s item outcome).state tid' = statusOf s tid'
    ∨ (tid' = item.task_id ∧ statusOf s tid' = some .pending
        ∧ (statusOf (workerIteration s item outcome).state tid' = some .completed
            ∨ statusOf (workerIteration s item outcome).state tid' = some .failed)) := by
  unfold workerIteration
  cases hl : alistLookup s.tasks item.task_id with
  | none => exact Or.inl rfl
  | some task =>
    by_cases hst : task.status = Status.pending
    · simp only [hst, ne_eq, not_true_eq_false, if_false, ite_false]
      by_cases he : tid' = item.task_id
      · subst he
        refine Or.inr ⟨rfl, by simp [statusOf, hl, hst], ?_⟩
        by_cases hrdy : s.segmentator_ready
        · cases outcome with
          | ok results overlay =>
            simp [hrdy, statusOf, alistLookup_insert_self]
          | raised msg =>
            simp [hrdy, statusOf, alistLookup_insert_self]
        · simp [hrdy, statusOf, alistLookup_insert_self]
      · refine Or.inl ?_
        by_cases hrdy : s.segmentator_ready
        · cases outcome with
          | ok results overlay =>
            simp [hrdy, statusOf, alistLookup_insert_ne _ _ _ _ he]
          | raised msg =>
            simp [hrdy, statusOf, alistLookup_insert_ne _ _ _ _ he]
        · simp [hrdy, statusOf, alistLookup_insert_ne _ _ _ _ he]
    · simp [hst]

/-- No worker iteration touches the queue list, the dedup index or the
feature cache (the queue entry itself was removed by `get()` before the
iteration body runs). -/
theorem workerIteration_frame (s : AppState) (item : QueueItem) (outcome : SegOutcome) :
    (workerIteration s item outcome).state.queue = s.queue
    ∧ (workerIteration s item outcome).state.file_hashes = s.file_hashes
    ∧ (workerIteration s item outcome).state.embedding_cache = s.embedding_cache := by
  unfold workerIteration
  cases hl : alistLookup s.tasks item.task_id with
  | none => exact ⟨rfl, rfl, rfl⟩
  | some task =>
    by_cases hst : task.status = Status.pending
    · by_cases hrdy : s.segmentator_ready
      · cases outcome with
        | ok results overlay => simp [hst, hrdy]
        | raised msg => simp [hst, hrdy]
      · simp [hst, hrdy]
    · simp [hst]

/-- The failing branch of the worker loop (`except Exception`, `worker.py`
lines 83-96): the dequeued pending job ends `failed` with the message stored,
nothing is persisted, the queue is untouched and the loop continues. -/
theorem workerIteration_raised (s : AppState) (item : QueueItem) (msg : String)
    (task : SegmentationTask) (hl : alistLookup s.tasks item.task_id = some task)
    (hst : task.status = Status.pending) (hrdy : s.segmentator_ready = true) :
    statusOf (workerIteration s item (.raised msg)).state item.task_id = some .failed
    ∧ (alistLookup (workerIteration s item (.raised msg)).state.tasks item.task_id).map
        (fun t => t.error) = some (some msg)
    ∧ (workerIteration s item (.raised msg)).savedTasksDb = false
    ∧ (workerIteration s item (.raised msg)).state.queue = s.queue
    ∧ (workerIteration s item (.raised msg)).breaksLoop = false := by
  unfold workerIteration
  rw [hl]
  simp [hst, hrdy, statusOf, alistLookup_insert_self]

/-- The grouping fold never files a path under the sentinel label `-1`:
every key of `label_to_paths` is a real cluster label. -/
theorem foldl_addLabeled_keys (l : List (String × Int)) :
    ∀ acc : List (Int × List String) × List String,
      (∀ q ∈ acc.1, q.1 ≠ -1) →
      ∀ q ∈ (l.foldl addLabeled acc).1, q.1 ≠ -1 := by
  induction l with
  | nil => intro acc hacc q hq; exact hacc q hq
  | cons pl rest ih =>
    intro acc hacc q hq
    refine ih (addLabeled acc pl) ?_ q hq
    intro r hr
    unfold addLabeled at hr
    by_cases h1 : pl.2 = -1
    · simp only [h1, if_pos rfl] at hr
      exact hacc r hr
    · simp only [if_neg h1] at hr
      by_cases h2 : acc.1.any (fun q => q.1 = pl.2)
      · simp only [h2, if_pos rfl] at hr
        rcases List.mem_map.mp hr with ⟨q₀, hq₀, hqe⟩
        by_cases h3 : q₀.1 = pl.2
        · rw [← hqe]
          simp only [h3, if_pos rfl]
          exact h3 ▸ hacc q₀ hq₀
        · rw [← hqe]
          simp only [h3, if_neg h3]
          exact hacc q₀ hq₀
      · simp only [h2] at hr
        rw [if_neg (by simp [h2])] at hr
        rcases List.mem_append.mp hr with hr | hr
        · exact hacc r hr
        · simp at hr
          rw [hr]
          exact h1

/-- The grouping fold sends exactly the sentinel-labelled paths to
`ungrouped`, in input order. -/
theorem foldl_addLabeled_snd (l : List (String × Int)) :
    ∀ acc : List (Int × List String) × List String,
      (l.foldl addLabeled acc).2 =
        acc.2 ++ l.filterMap (fun pl => if pl.2 = -1 then some pl.1 else none) := by
  induction l with
  | nil => intro acc; simp
  | cons pl rest ih =>
    intro acc
    rw [List.foldl_cons, ih]
    unfold addLabeled
    by_cases h1 : pl.2 = -1
    · simp [h1, List.filterMap_cons]
    · by_cases h2 : acc.1.any (fun q => q.1 = pl.2)
      · simp [h1, h2, List.filterMap_cons]
      · simp [h1, h2, List.filterMap_cons]

theorem queueLt_asymm (a b : QueueItem) (h1 : queueLt a b) (h2 : queueLe b a) : False := by
  rcases h1 with h1 | ⟨he, h1⟩
  · rcases h2 with h2 | ⟨he2, _⟩
    · exact absurd (lt_trans h1 h2) (lt_irrefl _)
    · rw [he2] at h1; exact lt_irrefl _ h1
  · rcases h2 with h2 | ⟨_, h2⟩
    · rw [he] at h2; exact lt_irrefl _ h2
    · exact absurd (Nat.lt_of_lt_of_le h1 h2) (lt_irrefl _)

theorem queueLt_irrefl (a : QueueItem) : ¬ queueLt a a := by
  intro h
  rcases h with h | ⟨_, h⟩
  · exact lt_irrefl _ h
  · exact lt_irrefl _ h

/-! ### Concrete states used as counterexamples and witnesses -/

/-- An empty application state (fresh start, segmentator loaded). -/
def baseState : AppState :=
  { queue := [], tasks := [], file_hashes := [], embedding_cache := [],
    clustering_status := .idle, clustering_total := 0, clustering_current := 0,
    cluster_results := none, segmentator_ready := true }

def exTaskPending : SegmentationTask :=
  { task_id := "t1", image_path := "img", status := .pending }

def exTaskFailed : SegmentationTask :=
  { task_id := "t1", image_path := "img", status := .failed }

def exTaskCompleted : SegmentationTask :=
  { task_id := "t1", image_path := "img", status := .completed }

/-- A store holding one `failed` job. -/
def sFailed : AppState := { baseState with tasks := [("t1", exTaskFailed)] }

/-- A store holding one `completed` job. -/
def sCompleted : AppState := { baseState with tasks := [("t1", exTaskCompleted)] }

/-- A store holding one `pending` job. -/
def sPending : AppState := { baseState with tasks := [("t1", exTaskPending)] }

/-- A store whose dedup index holds a legacy bare-string record. -/
def sLegacy : AppState :=
  { baseState with tasks := [("t1", exTaskPending)],
                   file_hashes := [("h1", .legacy "t1")] }

/-- A store holding one job with a dict-shaped dedup record for it and one
cached feature vector. -/
def sDedup : AppState :=
  { baseState with tasks := [("t1", exTaskPending)],
                   file_hashes := [("h1", .record "t1" 1 2)],
                   embedding_cache := [("p1", [1, 2])] }

/-- A persisted store as at restart: one `processing` and one `pending` job,
empty queue. -/
def sRestart : AppState :=
  { baseState with tasks :=
      [("a", { task_id := "a", image_path := "img", status := .processing }),
       ("b", { task_id := "b", image_path := "img", status := .pending })] }

/-- A state in which an aggregation run is already `running`, the queue is
empty and no job is `processing`. -/
def sRunning : AppState :=
  { baseState with tasks := [("t1", exTaskCompleted)], clustering_status := .running }

/-- Embedding collaborator stub for concrete runs. -/
def zeroEmbed : String → List Rat := fun _ => [0]

/-- Grouping collaborator stub: labels everything with the sentinel. -/
def sentinelLabels : List (List Rat) → List Int := fun embs => embs.map (fun _ => -1)

/-! ### The claims -/

/-- The property claim C1 states: no operation — in particular neither
`add_task` nor the priority-bump endpoint — ever moves a job from `failed`
or `completed` back to `pending`. -/
def C1property : Prop :=
  ∀ (s : AppState) (tid : String) (p : Int) (now : Nat),
    (statusOf s tid = some .failed ∨ statusOf s tid = some .completed) →
    statusOf (update_priority s tid p now).1 tid = statusOf s tid

/-- C1: counterexample.  The priority-bump endpoint on a `failed` job calls
`add_task`, whose guard only covers `completed` and `processing`
(`state.py` line 156), so the job is reset to `pending`: the claimed
invariant "no public operation moves a job from failed back to pending" is
false on the code. -/
theorem claim_C1_counterexample : ¬ C1property := by
  intro hp
  have h1 := hp sFailed "t1" 0 5 (Or.inl (by decide))
  exact absurd h1 (by decide)

/-- C1 (amended): statuses move forward along
`pending → processing → {completed, failed}` with exactly two backward
rules: the restore rule moves `processing → pending`, and `add_task` (hence
the priority-bump endpoint) moves `failed → pending` as the explicit
re-submission path.  `completed` and `processing` jobs are never touched by
`add_task`; a worker iteration moves only the dequeued `pending` job, to
`completed` or `failed`; the restore loop moves only `pending`/`processing`
jobs, to `pending`. -/
theorem claim_C1_amended :
    (∀ (s : AppState) (tid : String) (p : Int) (now : Nat),
        (statusOf s tid = some .completed ∨ statusOf s tid = some .processing) →
        add_task s tid p now = s)
  ∧ (∀ (s : AppState) (tid : String) (p : Int) (now : Nat) (tid' : String),
        statusOf (add_task s tid p now) tid' = statusOf s tid'
        ∨ (tid' = tid ∧ statusOf (add_task s tid p now) tid' = some .pending
            ∧ (statusOf s tid = some .pending ∨ statusOf s tid = some .failed)))
  ∧ (∀ (s : AppState) (tid : String) (p : Int) (now : Nat) (tid' : String),
        statusOf (update_priority s tid p now).1 tid' = statusOf s tid'
        ∨ (tid' = tid ∧ statusOf (update_priority s tid p now).1 tid' = some .pending
            ∧ (statusOf s tid = some .pending ∨ statusOf s tid = some .failed)))
  ∧ (∀ (s : AppState) (item : QueueItem) (outcome : SegOutcome) (tid' : String),
        statusOf (workerIteration s item outcome).state tid' = statusOf s tid'
        ∨ (tid' = item.task_id ∧ statusOf s tid' = some .pending
            ∧ (statusOf (workerIteration s item outcome).state tid' = some .completed
                ∨ statusOf (workerIteration s item outcome).state tid' = some .failed)))
  ∧ (∀ (s : AppState) (now : Nat) (tid : String), (s.tasks.map Prod.fst).Nodup →
        statusOf (lifespanRestore s now) tid = statusOf s tid
        ∨ (statusOf (lifespanRestore s now) tid = some .pending
            ∧ (statusOf s tid = some .pending ∨ statusOf s tid = some .processing))) := by
  refine ⟨add_task_noop, add_task_status, ?_, workerIteration_status, ?_⟩
  · intro s tid p now tid'
    unfold update_priority
    by_cases hs : (alistLookup s.tasks tid).isSome
    · simpa [hs] using add_task_status s tid p now tid'
    · simp [hs]
  · intro s now tid hnd
    by_cases hmem : tid ∈ s.tasks.map Prod.fst
    · rcases List.mem_map.mp hmem with ⟨pr, hpr, hfst⟩
      have hm : (tid, pr.2) ∈ s.tasks := by
        have : pr = (tid, pr.2) := by
          rw [← hfst]
        rw [← this]
        exact hpr
      have hlook := restoreLoop_lookup_mem now s.tasks s tid pr.2 hnd hm
      by_cases hr : requeuable pr.2
      · refine Or.inr ⟨?_, ?_⟩
        · rw [lifespanRestore, statusOf, hlook, if_pos hr]
          rfl
        · have hst := statusOf_eq_some s tid pr.2 (alistLookup_of_mem_nodup s.tasks hnd tid pr.2 hm)
          rw [hst]
          unfold requeuable at hr
          rcases Bool.or_eq_true_iff.mp hr with h | h
          · exact Or.inl (by rw [decide_eq_true_iff.mp h])
          · exact Or.inr (by rw [decide_eq_true_iff.mp h])
      · refine Or.inl ?_
        rw [lifespanRestore, statusOf, hlook, if_neg hr]
        rfl
    · refine Or.inl ?_
      rw [lifespanRestore, statusOf, restoreLoop_lookup_not_mem now s.tasks s tid hmem]
      rfl

/-- C1: witness for the amended theorem at a concrete `completed` job. -/
theorem claim_C1_witness : add_task sCompleted "t1" 0 5 = sCompleted :=
  claim_C1_amended.1 sCompleted "t1" 0 5 (Or.inl (by decide))

/-- The property claim C2 states: the dedup lookup at job submission
returns a job id only if a record for the fingerprint exists whose stored
parameters equal the requested `(a, b)` exactly — for any shape of stored
record. -/
def C2property : Prop :=
  ∀ (s : AppState) (h : String) (a b : Rat) (tid : String),
    dedupLookup s h a b = some tid →
    alistLookup s.file_hashes h = some (.record tid a b)

/-- C2: counterexample.  A legacy bare-string record (`main.py`
lines 209-213) is reused without any parameter check: on `sLegacy` the
lookup with thresholds `(3, 4)` returns `"t1"` although the stored record
holds no parameters at all. -/
theorem claim_C2_counterexample : ¬ C2property := by
  intro hp
  have h1 := hp sLegacy "h1" 3 4 "t1" (by decide)
  exact absurd h1 (by decide)

/-- C2 (amended): the dedup lookup returns a job id only if the fingerprint's
record is dict-shaped with stored parameters exactly equal to the request's
`(a, b)` — or is a legacy bare-string record, which is reused with no
parameter check; in both cases the returned id is present in the task
store. -/
theorem claim_C2_amended (s : AppState) (h : String) (a b : Rat) (tid : String)
    (hl : dedupLookup s h a b = some tid) :
    (alistLookup s.file_hashes h = some (.record tid a b)
        ∧ (alistLookup s.tasks tid).isSome)
    ∨ (alistLookup s.file_hashes h = some (.legacy tid)
        ∧ (alistLookup s.tasks tid).isSome) := by
  unfold dedupLookup at hl
  cases hfh : alistLookup s.file_hashes h with
  | none => rw [hfh] at hl; cases hl
  | some v =>
    rw [hfh] at hl
    cases v with
    | record tid0 i sc =>
      replace hl : (if i = a ∧ sc = b then
          if (alistLookup s.tasks tid0).isSome then some tid0 else none
        else none) = some tid := hl
      by_cases hp : i = a ∧ sc = b
      · rw [if_pos hp] at hl
        by_cases ht : (alistLookup s.tasks tid0).isSome
        · rw [if_pos ht] at hl
          injection hl with he
          subst he
          exact Or.inl ⟨by rw [hp.1, hp.2], ht⟩
        · rw [if_neg ht] at hl; cases hl
      · rw [if_neg hp] at hl; cases hl
    | legacy tid0 =>
      replace hl : (if (alistLookup s.tasks tid0).isSome then some tid0 else none)
          = some tid := hl
      by_cases ht : (alistLookup s.tasks tid0).isSome
      · rw [if_pos ht] at hl
        injection hl with he
        subst he
        exact Or.inr ⟨rfl, ht⟩
      · rw [if_neg ht] at hl; cases hl
    | null => cases hl

/-- C2: witness for the amended theorem at the legacy record. -/
theorem claim_C2_witness :
    (alistLookup sLegacy.file_hashes "h1" = some (.record "t1" 3 4)
        ∧ (alistLookup sLegacy.tasks "t1").isSome)
    ∨ (alistLookup sLegacy.file_hashes "h1" = some (.legacy "t1")
        ∧ (alistLookup sLegacy.tasks "t1").isSome) :=
  claim_C2_amended sLegacy "h1" 3 4 "t1" (by decide)

/-- The property claim C7 states: `add_task` enqueues unconditionally, for
every job id and priority, regardless of the job's current status. -/
def C7property : Prop :=
  ∀ (s : AppState) (tid : String) (p : Int) (now : Nat),
    queueCount (add_task s tid p now).queue tid = queueCount s.queue tid + 1

/-- C7: counterexample.  `add_task` returns early — enqueueing nothing —
when the job exists with status `completed` or `processing` (`state.py`
lines 155-158): on a store holding one `completed` job the push adds no
entry. -/
theorem claim_C7_counterexample : ¬ C7property := by
  intro hp
  have h1 := hp sCompleted "t1" 0 5
  exact absurd h1 (by decide)

/-- C7 (amended): `add_task` is a silent no-op when the job exists with
status `completed` or `processing`; in every other case (absent, `pending`
or `failed` job) it appends exactly one entry without removing or altering
existing ones, so two pushes of such a job id leave two entries referencing
it. -/
theorem claim_C7_amended :
    (∀ (s : AppState) (tid : String) (p : Int) (now : Nat),
        (statusOf s tid = some .completed ∨ statusOf s tid = some .processing) →
        add_task s tid p now = s)
  ∧ (∀ (s : AppState) (tid : String) (p : Int) (now : Nat),
        ¬ (statusOf s tid = some .completed ∨ statusOf s tid = some .processing) →
        (add_task s tid p now).queue = s.queue ++ [⟨p, now, tid⟩])
  ∧ (∀ (s : AppState) (tid : String) (p p' : Int) (now now' : Nat),
        ¬ (statusOf s tid = some .completed ∨ statusOf s tid = some .processing) →
        queueCount (add_task (add_task s tid p now) tid p' now').queue tid
          = queueCount s.queue tid + 2) := by
  refine ⟨add_task_noop, add_task_queue, ?_⟩
  intro s tid p p' now now' h
  have h2 : ¬ (statusOf (add_task s tid p now) tid = some .completed
      ∨ statusOf (add_task s tid p now) tid = some .processing) := by
    rcases add_task_status_after s tid p now with hh | hh
    · rw [hh]; exact h
    · rw [hh]; simp
  rw [add_task_queue _ _ _ _ h2, add_task_queue _ _ _ _ h]
  unfold queueCount
  simp [List.countP_append, List.countP_cons]

/-- C7: witness for the amended theorem at a concrete `failed` job (two
pushes leave two entries). -/
theorem claim_C7_witness :
    queueCount (add_task (add_task sFailed "t1" 2 5) "t1" 0 6).queue "t1"
      = queueCount sFailed.queue "t1" + 2 :=
  claim_C7_amended.2.2 sFailed "t1" 2 0 5 6 (by decide)

/-- C3: the code violates the single-flight rule.  On `sRunning` — an
aggregation run already `running`, queue empty, no job `processing` — the
manual trigger endpoint correctly refuses to schedule a run, but the worker
loop's idle check fires anyway (it never consults the aggregation status),
and `run_clustering_task` itself contains no `running` guard: invoked in
this state it executes to completion, overwriting the aggregation status and
the stored result, so a second run executes concurrently with the first
rather than being a no-op. -/
theorem claim_C3_bug :
    sRunning.clustering_status = .running
    ∧ workerFinallyCheck sRunning = true
    ∧ trigger_clustering sRunning = false
    ∧ (run_clustering_task sRunning true ["p1"] zeroEmbed sentinelLabels).clustering_status
        = .completed
    ∧ (run_clustering_task sRunning true ["p1"] zeroEmbed sentinelLabels).cluster_results
        ≠ sRunning.cluster_results := by
  refine ⟨rfl, by decide, rfl, ?_, ?_⟩
  · decide
  · decide

/-- The property claim C5 states: on a collaborator exception the worker
marks the job `failed`, stores the error message, persists the job table,
does not retry, and the loop survives. -/
def C5property : Prop :=
  ∀ (s : AppState) (item : QueueItem) (msg : String) (task : SegmentationTask),
    alistLookup s.tasks item.task_id = some task → task.status = .pending →
    s.segmentator_ready = true →
    statusOf (workerIteration s item (.raised msg)).state item.task_id = some .failed
    ∧ (alistLookup (workerIteration s item (.raised msg)).state.tasks item.task_id).map
        (fun t => t.error) = some (some msg)
    ∧ (workerIteration s item (.raised msg)).savedTasksDb = true
    ∧ (workerIteration s item (.raised msg)).state.queue = s.queue
    ∧ (workerIteration s item (.raised msg)).breaksLoop = false

/-- C5: counterexample.  The worker's `except Exception` handler
(`worker.py` lines 83-92) sets the error and the `failed` status but never
calls `state.save_tasks_db()` — persistence happens only on the success path
(line 77) — so the "persists the job table" conjunct is false on the
code. -/
theorem claim_C5_counterexample : ¬ C5property := by
  intro hp
  have h1 := hp sPending ⟨0, 0, "t1"⟩ "boom" exTaskPending (by decide) (by decide) (by decide)
  exact absurd h1.2.2.1 (by decide)

/-- C5 (amended): on a collaborator exception the worker marks the dequeued
pending job `failed`, stores the error message on it, does not re-enqueue it
(the queue is untouched), and the loop survives to the next dequeue — but
the job table is NOT persisted in this failure path (persistence happens
only on success). -/
theorem claim_C5_amended (s : AppState) (item : QueueItem) (msg : String)
    (task : SegmentationTask) (hl : alistLookup s.tasks item.task_id = some task)
    (hst : task.status = Status.pending) (hrdy : s.segmentator_ready = true) :
    statusOf (workerIteration s item (.raised msg)).state item.task_id = some .failed
    ∧ (alistLookup (workerIteration s item (.raised msg)).state.tasks item.task_id).map
        (fun t => t.error) = some (some msg)
    ∧ (workerIteration s item (.raised msg)).savedTasksDb = false
    ∧ (workerIteration s item (.raised msg)).state.queue = s.queue
    ∧ (workerIteration s item (.raised msg)).breaksLoop = false := by
  have h := workerIteration_raised s item msg task hl hst hrdy
  exact ⟨h.1, h.2.1, h.2.2.1, h.2.2.2.1, h.2.2.2.2⟩

/-- C5: witness for the amended theorem at a concrete pending job. -/
theorem claim_C5_witness :
    statusOf (workerIteration sPending ⟨0, 0, "t1"⟩ (.raised "boom")).state "t1"
        = some .failed
    ∧ (workerIteration sPending ⟨0, 0, "t1"⟩ (.raised "boom")).savedTasksDb = false :=
  ⟨(claim_C5_amended sPending ⟨0, 0, "t1"⟩ "boom" exTaskPending (by decide) (by decide)
      (by decide)).1,
   (claim_C5_amended sPending ⟨0, 0, "t1"⟩ "boom" exTaskPending (by decide) (by decide)
      (by decide)).2.2.1⟩

/-- C8: confirmed.  When the dequeued entry's job id is absent from the
store, or the job's status is not `pending`, the iteration leaves the whole
application state — in particular every job's status, results, error and
metadata, the dedup index and the feature cache — unchanged and persists
nothing. -/
theorem claim_C8 (s : AppState) (item : QueueItem) (outcome : SegOutcome)
    (h : alistLookup s.tasks item.task_id = none ∨
      ∃ task, alistLookup s.tasks item.task_id = some task ∧ task.status ≠ Status.pending) :
    (workerIteration s item outcome).state = s
    ∧ (workerIteration s item outcome).savedTasksDb = false := by
  rw [workerIteration_noop s item outcome h]
  exact ⟨rfl, rfl⟩

/-- C8: witness at a queue entry whose job id is absent from the store. -/
theorem claim_C8_witness :
    (workerIteration baseState ⟨0, 0, "ghost"⟩ (.raised "boom")).state = baseState
    ∧ (workerIteration baseState ⟨0, 0, "ghost"⟩ (.raised "boom")).savedTasksDb = false :=
  claim_C8 baseState ⟨0, 0, "ghost"⟩ (.raised "boom") (Or.inl (by decide))

theorem delete_task_cache (s : AppState) (tid : String) :
    (delete_task s tid).1.embedding_cache = s.embedding_cache := by
  by_cases hs : (alistLookup s.tasks tid).isSome
  · cases hfind : s.file_hashes.find? (fun p => p.2.taskId = some tid) with
    | none => simp [delete_task, save_hash, hs, hfind]
    | some pr => simp [delete_task, save_hash, hs, hfind]
  · simp [delete_task, hs]

theorem delete_task_hashes_found (s : AppState) (tid : String) (pr : String × HashVal)
    (hs : (alistLookup s.tasks tid).isSome)
    (hfind : s.file_hashes.find? (fun p => p.2.taskId = some tid) = some pr) :
    (delete_task s tid).1.file_hashes =
      alistInsert (alistErase s.file_hashes pr.1) pr.1 .null := by
  simp [delete_task, save_hash, hs, hfind]

theorem dedupLookup_of_null (s : AppState) (h : String) (a b : Rat)
    (hl : alistLookup s.file_hashes h = some .null) : dedupLookup s h a b = none := by
  unfold dedupLookup
  rw [hl]

/-- The property claim C9 states: deleting a job removes the dedup record
for its fingerprint — the fingerprint key is gone from the index — while
leaving every feature-cache entry unchanged. -/
def C9property : Prop :=
  ∀ (s : AppState) (tid h : String),
    (alistLookup s.tasks tid).isSome →
    (s.file_hashes.find? (fun p => p.2.taskId = some tid)).map (fun p => p.1) = some h →
    alistLookup (delete_task s tid).1.file_hashes h = none

/-- C9: counterexample.  `delete_task` first `del`s the fingerprint but then
calls `save_hash(hash, None)` (`state.py` line 213), which re-inserts the
key with value `None`: after deleting the only job of `sDedup` the
fingerprint is still a key of the index, mapped to the null marker, so the
record is not removed. -/
theorem claim_C9_counterexample : ¬ C9property := by
  intro hp
  have h1 := hp sDedup "t1" "h1" (by decide) (by decide)
  exact absurd h1 (by decide)

/-- C9 (amended): deleting a job replaces its fingerprint's dedup record
with a null marker (the key survives, mapped to `None`, and is persisted
that way) rather than removing the key; the dedup lookup treats the null
record as falsy, so a lookup of that fingerprint finds no reusable job for
any parameters and a resubmission with the same fingerprint creates a
brand-new job id; every feature-cache entry is left unchanged. -/
theorem claim_C9_amended :
    (∀ (s : AppState) (tid : String),
        (delete_task s tid).1.embedding_cache = s.embedding_cache)
  ∧ (∀ (s : AppState) (tid h : String),
        (alistLookup s.tasks tid).isSome →
        (s.file_hashes.find? (fun p => p.2.taskId = some tid)).map (fun p => p.1) = some h →
        alistLookup (delete_task s tid).1.file_hashes h = some .null
        ∧ ∀ a b : Rat, dedupLookup (delete_task s tid).1 h a b = none)
  ∧ (∀ (s : AppState) (image : String) (p : Int) (iou score : Rat)
        (md : List (String × String)) (h new_id : String) (now : Nat),
        dedupLookup s h iou score = none →
        (create_segment_task s image p iou score md (some h) new_id now).2
          = .created new_id) := by
  refine ⟨delete_task_cache, ?_, ?_⟩
  · intro s tid h hs hfound
    rcases Option.map_eq_some'.mp hfound with ⟨pr, hpr, hfst⟩
    have hfh := delete_task_hashes_found s tid pr hs hpr
    have hnull : alistLookup (delete_task s tid).1.file_hashes h = some .null := by
      rw [hfh, ← hfst]
      exact alistLookup_insert_self _ _ _
    exact ⟨hnull, fun a b => dedupLookup_of_null _ _ a b hnull⟩
  · intro s image p iou score md h new_id now hmiss
    simp [create_segment_task, hmiss]

/-- C9: witness for the amended theorem at the concrete store `sDedup`. -/
theorem claim_C9_witness :
    alistLookup (delete_task sDedup "t1").1.file_hashes "h1" = some .null
    ∧ (delete_task sDedup "t1").1.embedding_cache = sDedup.embedding_cache :=
  ⟨(claim_C9_amended.2.1 sDedup "t1" "h1" (by decide) (by decide)).1,
   claim_C9_amended.1 sDedup "t1"⟩

theorem restore_queueCount (s : AppState) (now : Nat)
    (hnd : (s.tasks.map Prod.fst).Nodup) (hq : s.queue = [])
    (tid : String) (task : SegmentationTask) (hm : (tid, task) ∈ s.tasks) :
    queueCount (lifespanRestore s now).queue tid = if requeuable task then 1 else 0 := by
  rw [lifespanRestore, restoreLoop_queue, hq]
  unfold queueCount
  rw [List.nil_append, List.countP_map, List.countP_filter]
  exact countP_key_unique s.tasks hnd tid task hm (fun p => requeuable p.2)

/-- C4: confirmed.  On restore (`lifespan`, `main.py` lines 58-68) every
`processing` or `pending` job ends `pending` with exactly one queue entry,
every entry added carries the default priority 2, and `completed`/`failed`
jobs are left untouched with no entry; in particular restoring a store with
one `processing` and one `pending` job leaves both `pending`, each in the
scheduler exactly once. -/
theorem claim_C4 :
    (∀ (s : AppState) (now : Nat), (s.tasks.map Prod.fst).Nodup → s.queue = [] →
      ∀ (tid : String) (task : SegmentationTask), (tid, task) ∈ s.tasks →
        ((task.status = .processing ∨ task.status = .pending) →
            statusOf (lifespanRestore s now) tid = some .pending
            ∧ queueCount (lifespanRestore s now).queue tid = 1)
        ∧ ((task.status = .completed ∨ task.status = .failed) →
            alistLookup (lifespanRestore s now).tasks tid = some task
            ∧ queueCount (lifespanRestore s now).queue tid = 0)
        ∧ (∀ item ∈ (lifespanRestore s now).queue, item.priority = 2))
  ∧ (statusOf (lifespanRestore sRestart 9) "a" = some .pending
      ∧ statusOf (lifespanRestore sRestart 9) "b" = some .pending
      ∧ queueCount (lifespanRestore sRestart 9).queue "a" = 1
      ∧ queueCount (lifespanRestore sRestart 9).queue "b" = 1) := by
  constructor
  · intro s now hnd hq tid task hm
    have hcount := restore_queueCount s now hnd hq tid task hm
    refine ⟨?_, ?_, ?_⟩
    · intro hst
      have hreq : requeuable task = true := by
        unfold requeuable
        rcases hst with h | h
        · simp [h]
        · simp [h]
      constructor
      · rw [lifespanRestore, statusOf,
          restoreLoop_lookup_mem now s.tasks s tid task hnd hm, if_pos hreq]
        rfl
      · rw [hcount, if_pos hreq]
    · intro hst
      have hreq : requeuable task = false := by
        unfold requeuable
        rcases hst with h | h
        · simp [h]
        · simp [h]
      constructor
      · rw [lifespanRestore,
          restoreLoop_lookup_mem now s.tasks s tid task hnd hm, if_neg (by simp [hreq])]
        exact alistLookup_of_mem_nodup s.tasks hnd tid task hm
      · rw [hcount, if_neg (by simp [hreq])]
    · intro item him
      rw [lifespanRestore, restoreLoop_queue, hq] at him
      simp only [List.nil_append] at him
      rcases List.mem_map.mp him with ⟨p, _, hpe⟩
      rw [← hpe]
  · exact ⟨by decide, by decide, by decide, by decide⟩

/-- C4: witness for the general part at the concrete restart store. -/
theorem claim_C4_witness :
    statusOf (lifespanRestore sRestart 9) "a" = some .pending
    ∧ queueCount (lifespanRestore sRestart 9).queue "a" = 1 :=
  (claim_C4.1 sRestart 9 (by decide) rfl "a"
      { task_id := "a", image_path := "img", status := .processing }
      (by decide)).1 (Or.inl rfl)

/-- C6: confirmed.  The queue serves entries in `(priority ascending,
timestamp ascending)` order: the full service order is a sorted permutation
of the queue's entries; whenever entry `a` has strictly lower priority than
`b`, or equal priority and strictly earlier insertion timestamp, `a` is
served before `b`; consequently for job A pushed at priority 2 before job B
at priority 0, B is served first. -/
theorem claim_C6 :
    (∀ q : List QueueItem, List.Sorted queueLe (drain q) ∧ (drain q).Perm q)
  ∧ (∀ (q : List QueueItem) (a b : QueueItem), a ∈ q → b ∈ q → queueLt a b →
      ∃ i j : Fin (drain q).length, (i : Nat) < (j : Nat)
        ∧ (drain q).get i = a ∧ (drain q).get j = b)
  ∧ drain [⟨2, 10, "A"⟩, ⟨0, 11, "B"⟩] = [⟨0, 11, "B"⟩, ⟨2, 10, "A"⟩] := by
  refine ⟨?_, ?_, by decide⟩
  · intro q
    exact ⟨List.sorted_insertionSort queueLe q, List.perm_insertionSort queueLe q⟩
  · intro q a b ha hb hlt
    have hperm := List.perm_insertionSort queueLe q
    have ha' : a ∈ drain q := hperm.mem_iff.mpr ha
    have hb' : b ∈ drain q := hperm.mem_iff.mpr hb
    obtain ⟨ia, hia⟩ := List.mem_iff_get.mp ha'
    obtain ⟨ib, hib⟩ := List.mem_iff_get.mp hb'
    have hs : List.Pairwise queueLe (drain q) := List.sorted_insertionSort queueLe q
    rcases Nat.lt_trichotomy (ia : Nat) (ib : Nat) with h | h | h
    · exact ⟨ia, ib, h, hia, hib⟩
    · exfalso
      have hab : a = b := by rw [← hia, ← hib, Fin.ext h]
      exact queueLt_irrefl a (hab ▸ hlt)
    · exfalso
      have hp := List.pairwise_iff_get.mp hs ib ia h
      rw [hia, hib] at hp
      exact queueLt_asymm a b hlt hp

/-- C6: witness at the concrete two-entry queue of the end-to-end
scenario. -/
theorem claim_C6_witness :
    List.Sorted queueLe (drain [⟨2, 10, "A"⟩, ⟨0, 11, "B"⟩])
    ∧ (drain [⟨2, 10, "A"⟩, ⟨0, 11, "B"⟩]).Perm [⟨2, 10, "A"⟩, ⟨0, 11, "B"⟩] :=
  claim_C6.1 [⟨2, 10, "A"⟩, ⟨0, 11, "B"⟩]

/-- The descending-count relation on assembled groups. -/
def groupGe (g h : Group) : Prop := h.count ≤ g.count

instance : DecidableRel groupGe := fun g h => by unfold groupGe; infer_instance

/-- The group order claim C10 asserts: descending member count, ties broken
by group id ascending. -/
def claimGroupRel (g h : Group) : Prop :=
  h.count < g.count ∨ (g.count = h.count ∧ g.id ≤ h.id)

instance : DecidableRel claimGroupRel := fun g h => by unfold claimGroupRel; infer_instance

/-- The ordering claim C10 makes about the assembled group list. -/
def specGroupOrder (gs : List Group) : Prop := List.Pairwise claimGroupRel gs

instance (gs : List Group) : Decidable (specGroupOrder gs) := by
  unfold specGroupOrder
  infer_instance

/-- C10: counterexample.  `organize_clusters` sorts only by `-len(paths)`
(`clustering.py` line 115); Python's stable sort leaves ties in
first-appearance order of the label, not id-ascending order: for paths
`[a, b]` labelled `[2, 0]` the assembled groups come out with ids `[2, 0]`,
violating the claimed tie-break. -/
theorem claim_C10_counterexample :
    (organize_clusters ["a", "b"] [2, 0]).groups.map (fun g => g.id) = [2, 0]
    ∧ ¬ specGroupOrder (organize_clusters ["a", "b"] [2, 0]).groups := by
  exact ⟨by decide, by decide⟩

/-- C10 (amended): the assembled groups are sorted by descending member
count with ties left in first-appearance order of the label (stable sort) —
not broken by group id; every group carries the integer label the grouping
collaborator produced, with `count` the member count, and no group carries
the unclustered sentinel `-1`: all sentinel-labelled artifacts land in the
`ungrouped` list, in input order. -/
theorem claim_C10_amended (paths : List String) (labels : List Int) :
    List.Sorted groupGe (organize_clusters paths labels).groups
    ∧ (∀ g ∈ (organize_clusters paths labels).groups,
        g.id ≠ -1 ∧ g.count = g.sticker_paths.length)
    ∧ (organize_clusters paths labels).ungrouped
        = (paths.zip labels).filterMap (fun pl => if pl.2 = -1 then some pl.1 else none) := by
  refine ⟨?_, ?_, ?_⟩
  · have hs := List.sorted_insertionSort pairGe ((paths.zip labels).foldl addLabeled ([], [])).1
    unfold organize_clusters
    exact List.pairwise_map.mpr (hs.imp (fun h => h))
  · intro g hg
    unfold organize_clusters at hg
    rcases List.mem_map.mp hg with ⟨q, hq, hqe⟩
    have hq' : q ∈ ((paths.zip labels).foldl addLabeled ([], [])).1 :=
      (List.perm_insertionSort pairGe _).mem_iff.mp hq
    have hid := foldl_addLabeled_keys (paths.zip labels) ([], []) (by intro r hr; cases hr) q hq'
    constructor
    · rw [← hqe]
      exact hid
    · rw [← hqe]
  · show ((paths.zip labels).foldl addLabeled ([], [])).2
      = (paths.zip labels).filterMap (fun pl => if pl.2 = -1 then some pl.1 else none)
    rw [foldl_addLabeled_snd]
    rfl

/-- C10: witness for the amended theorem at the tie-breaking
counterexample's input. -/
theorem claim_C10_witness :
    List.Sorted groupGe (organize_clusters ["a", "b"] [2, 0]).groups :=
  (claim_C10_amended ["a", "b"] [2, 0]).1

end StickerDb
